import Mathlib

/-!
Verification of the regex engine in `src/matcher.rs`, `src/regex_parser.rs`
and `src/lib.rs` of the codecrafters-grep-rust repository.

The embedding is shallow: Rust strings become `List Char` (offsets are
code-point indices), `HashMap<usize, _>` becomes an association list with
replace-on-insert, fallible parsing becomes `Except String`, and the
backtracking evaluator — whose Rust original can loop forever on trees
whose `Multiple` child matches the empty string — takes an explicit fuel
argument that is decremented on every (mutual) recursive call.
-/

namespace RegexGrep

/-- The `Matcher` enum of `src/matcher.rs` (lines 3-19). -/
inductive Matcher where
  | singleChar (c : Char)
  | startM
  | endM
  | singleCharBranch (chars : List Char) (negated : Bool)
  | sequence (ms : List Matcher)
  | multiple (m : Matcher) (mn : Nat) (mx : Option Nat) (follow : Option Matcher)
  | wildcard
  | group (ms : List Matcher) (idx : Nat)
  | groupReference (idx : Nat)
deriving Repr

/-- The `Match` struct of `src/matcher.rs` (lines 420-425): matched text,
starting offset, and the captured sub-matches keyed by group index
(`HashMap<usize, Match>` modelled as an association list). -/
inductive MatchRes where
  | mk (text : List Char) (offset : Nat) (sub : List (Nat × MatchRes))
deriving Repr

def MatchRes.text : MatchRes → List Char
  | .mk t _ _ => t

def MatchRes.offset : MatchRes → Nat
  | .mk _ o _ => o

def MatchRes.sub : MatchRes → List (Nat × MatchRes)
  | .mk _ _ s => s

/-- Insert-or-replace for the association lists modelling `HashMap`. -/
def insertAssoc {α : Type} (k : Nat) (v : α) : List (Nat × α) → List (Nat × α)
  | [] => [(k, v)]
  | (k', v') :: rest => if k' = k then (k, v) :: rest else (k', v') :: insertAssoc k v rest

/-- Lookup in the association lists modelling `HashMap`. -/
def lookupAssoc {α : Type} (k : Nat) : List (Nat × α) → Option α
  | [] => none
  | (k', v) :: rest => if k' = k then some v else lookupAssoc k rest

/-- `Match::accumulate` (matcher.rs lines 436-441): append the other match's
text and merge its sub-matches; the offset is untouched. -/
def MatchRes.accumulate (a b : MatchRes) : MatchRes :=
  .mk (a.text ++ b.text) a.offset (b.sub.foldl (fun acc kv => insertAssoc kv.1 kv.2 acc) a.sub)

/-- The transient group-capture mapping `HashMap<usize, String>`. -/
abbrev GroupMap := List (Nat × List Char)

/-- `Matcher::update_group_results` (matcher.rs lines 319-323). -/
def updateGroupResults (g : GroupMap) (m : MatchRes) : GroupMap :=
  m.sub.foldl (fun acc kv => insertAssoc kv.1 kv.2.text acc) g

/-- UTF-8 byte length of a text, as Rust's `str::len` computes it. -/
def byteLen (text : List Char) : Nat :=
  (text.map Char.utf8Size).sum

/-- `Matcher::check_single_char` (matcher.rs lines 236-246). -/
def checkSingleChar (c : Char) (text : List Char) (off : Nat) : Option MatchRes :=
  if off ≥ text.length then none
  else
    match text[off]? with
    | some ch => if ch = c then some (MatchRes.mk [ch] off []) else none
    | none => none

/-- `Matcher::check_start` (matcher.rs lines 248-254). -/
def checkStart (off : Nat) : Option MatchRes :=
  if off = 0 then some (MatchRes.mk [] off []) else none

/-- `Matcher::check_end` (matcher.rs lines 256-262): note that the Rust code
compares the character offset with `text.len()`, the UTF-8 byte length. -/
def checkEnd (text : List Char) (off : Nat) : Option MatchRes :=
  if off = byteLen text then some (MatchRes.mk [] off []) else none

/-- `Matcher::check_single_char_branch` (matcher.rs lines 264-295). -/
def checkBranch (chars : List Char) (negated : Bool) (text : List Char) (off : Nat) :
    Option MatchRes :=
  match text[off]? with
  | some ch =>
    if negated then
      if chars.contains ch then none else some (MatchRes.mk [ch] off [])
    else
      if chars.contains ch then some (MatchRes.mk [ch] off []) else none
  | none => none

/-- `Matcher::check_wildcard` (matcher.rs lines 377-379). -/
def checkWildcard (text : List Char) (off : Nat) : Option MatchRes :=
  (text[off]?).map fun c => MatchRes.mk [c] off []

/-- Boolean test that `s` is a prefix of `l`, as Rust's `str::starts_with`. -/
def listStartsWith : List Char → List Char → Bool
  | _, [] => true
  | [], _ :: _ => false
  | c :: cs, p :: ps => c = p && listStartsWith cs ps

/-- `Matcher::check_group_reference` (matcher.rs lines 400-417). -/
def checkGroupRef (idx : Nat) (text : List Char) (off : Nat) (g : GroupMap) :
    Option MatchRes :=
  match lookupAssoc idx g with
  | some s => if listStartsWith (text.drop off) s then some (MatchRes.mk s off []) else none
  | none => none

/-- Dispatch type for the fueled evaluator `evalTask`: one constructor per
recursive entry point of the Rust evaluator (`check_match`, the
`check_sequence` fold, the `check_multiple` loop, the `check_group` loop,
and the `find_match` offset loop), so that the whole backtracking
evaluation is a single structural recursion on the fuel and reduces
definitionally. -/
inductive Task where
  | chk (m : Matcher) (off : Nat) (g : GroupMap)
  | seq (ms : List Matcher) (g : GroupMap) (acc : MatchRes) (curr : Nat)
  | mult (child : Matcher) (mn : Nat) (mx : Option Nat) (fl : Option Matcher) (g : GroupMap)
      (acc : MatchRes) (curr : Nat) (count : Nat)
  | grp (ms : List Matcher) (idx : Nat) (off : Nat) (g : GroupMap)
  | find (root : Matcher) (offs : List Nat)

/-- The backtracking evaluator of `src/matcher.rs` (lines 115-417) as one
fueled function; the named wrappers below restate each Rust method and its
defining equations. Every recursive call decrements the fuel; at fuel 0 the
evaluator gives up with `none` (the Rust original can loop forever when a
`Multiple` child matches the empty string). -/
def evalTask : Nat → List Char → Task → Option MatchRes
  | 0, _, _ => none
  | f + 1, text, task =>
    match task with
    | .chk m off g =>
      match m with
      | .singleChar c => checkSingleChar c text off
      | .startM => checkStart off
      | .endM => checkEnd text off
      | .singleCharBranch cs neg => checkBranch cs neg text off
      | .sequence ms => evalTask f text (.seq ms g (MatchRes.mk [] off []) off)
      | .multiple child mn mx fl =>
        evalTask f text (.mult child mn mx fl g (MatchRes.mk [] off []) off 0)
      | .wildcard => checkWildcard text off
      | .group ms idx => evalTask f text (.grp ms idx off g)
      | .groupReference idx => checkGroupRef idx text off g
    | .seq ms g acc curr =>
      match ms with
      | [] => some acc
      | m :: rest =>
        match evalTask f text (.chk m curr g) with
        | some other =>
          evalTask f text (.seq rest (updateGroupResults g other) (acc.accumulate other)
            (curr + other.text.length))
        | none => none
    | .mult child mn mx fl g acc curr count =>
      match evalTask f text (.chk child curr g) with
      | some other =>
        if decide (count ≥ mn) &&
            (match mx with
             | some v => decide (count ≥ v)
             | none => true) &&
            (match fl with
             | some fm => (evalTask f other.text (.find fm (List.range other.text.length))).isSome
             | none => false) then
          some acc
        else
          match mx with
          | some v =>
            if count + 1 ≥ v then some (acc.accumulate other)
            else
              evalTask f text (.mult child mn mx fl (updateGroupResults g other)
                (acc.accumulate other) (curr + other.text.length) (count + 1))
          | none =>
            evalTask f text (.mult child mn mx fl (updateGroupResults g other)
              (acc.accumulate other) (curr + other.text.length) (count + 1))
      | none => if count ≥ mn then some acc else none
    | .grp ms idx off g =>
      match ms with
      | [] => none
      | m :: rest =>
        match evalTask f text (.chk m off g) with
        | some mm =>
          some (MatchRes.mk ((MatchRes.mk [] off []).accumulate mm).text
            ((MatchRes.mk [] off []).accumulate mm).offset
            (insertAssoc idx ((MatchRes.mk [] off []).accumulate mm)
              ((MatchRes.mk [] off []).accumulate mm).sub))
        | none => evalTask f text (.grp rest idx off g)
    | .find root offs =>
      match offs with
      | [] => none
      | o :: rest =>
        match evalTask f text (.chk root o []) with
        | some r => some r
        | none => evalTask f text (.find root rest)

/-- `Matcher::check_match` (matcher.rs lines 212-234). -/
def checkMatch (f : Nat) (m : Matcher) (text : List Char) (off : Nat) (g : GroupMap) :
    Option MatchRes :=
  evalTask f text (.chk m off g)

/-- The fold of `Matcher::check_sequence` (matcher.rs lines 297-317):
`acc` is the accumulated match and `curr` the current offset. -/
def checkSequence (f : Nat) (ms : List Matcher) (text : List Char) (g : GroupMap)
    (acc : MatchRes) (curr : Nat) : Option MatchRes :=
  evalTask f text (.seq ms g acc curr)

/-- The loop of `Matcher::check_multiple` (matcher.rs lines 325-375):
`acc` is the accumulated match `m`, `curr` the current offset, `count` the
repetition count. -/
def checkMultiple (f : Nat) (child : Matcher) (mn : Nat) (mx : Option Nat) (fl : Option Matcher)
    (text : List Char) (g : GroupMap) (acc : MatchRes) (curr count : Nat) : Option MatchRes :=
  evalTask f text (.mult child mn mx fl g acc curr count)

/-- The loop of `Matcher::check_group` (matcher.rs lines 381-398): try the
alternatives in order; on the first success, accumulate it into an empty
match at `off` and record that match under the group's own index. -/
def checkGroup (f : Nat) (ms : List Matcher) (idx : Nat) (text : List Char) (off : Nat)
    (g : GroupMap) : Option MatchRes :=
  evalTask f text (.grp ms idx off g)

/-- The offset loop of `Matcher::find_match` (matcher.rs lines 119-127):
try `check_match` with empty groups at each offset of the list in turn. -/
def findMatchFrom (f : Nat) (root : Matcher) (text : List Char) (offs : List Nat) :
    Option MatchRes :=
  evalTask f text (.find root offs)

/-- `Matcher::matches` (matcher.rs lines 115-117) as used by the `follow`
lookahead: a leftmost search over offsets `0..len` (exclusive). -/
def matchesAux (f : Nat) (root : Matcher) (text : List Char) : Bool :=
  (findMatchFrom f root text (List.range text.length)).isSome

theorem checkMatch_zero (m : Matcher) (text : List Char) (off : Nat) (g : GroupMap) :
    checkMatch 0 m text off g = none := rfl

/-- Defining equation of `check_match` (matcher.rs lines 212-234): dispatch
on the matcher variant. -/
theorem checkMatch_succ (f : Nat) (m : Matcher) (text : List Char) (off : Nat) (g : GroupMap) :
    checkMatch (f + 1) m text off g =
      match m with
      | .singleChar c => checkSingleChar c text off
      | .startM => checkStart off
      | .endM => checkEnd text off
      | .singleCharBranch cs neg => checkBranch cs neg text off
      | .sequence ms => checkSequence f ms text g (MatchRes.mk [] off []) off
      | .multiple child mn mx fl =>
        checkMultiple f child mn mx fl text g (MatchRes.mk [] off []) off 0
      | .wildcard => checkWildcard text off
      | .group ms idx => checkGroup f ms idx text off g
      | .groupReference idx => checkGroupRef idx text off g := rfl

theorem checkSequence_zero (ms : List Matcher) (text : List Char) (g : GroupMap)
    (acc : MatchRes) (curr : Nat) : checkSequence 0 ms text g acc curr = none := rfl

theorem checkSequence_nil (f : Nat) (text : List Char) (g : GroupMap) (acc : MatchRes)
    (curr : Nat) : checkSequence (f + 1) [] text g acc curr = some acc := rfl

/-- Defining equation of the `check_sequence` fold (matcher.rs lines
297-317): check the head at the current offset, then continue with the
accumulated match, merged group results and advanced offset. -/
theorem checkSequence_cons (f : Nat) (m : Matcher) (rest : List Matcher) (text : List Char)
    (g : GroupMap) (acc : MatchRes) (curr : Nat) :
    checkSequence (f + 1) (m :: rest) text g acc curr =
      match checkMatch f m text curr g with
      | some other =>
        checkSequence f rest text (updateGroupResults g other) (acc.accumulate other)
          (curr + other.text.length)
      | none => none := rfl

theorem checkMultiple_zero (child : Matcher) (mn : Nat) (mx : Option Nat) (fl : Option Matcher)
    (text : List Char) (g : GroupMap) (acc : MatchRes) (curr count : Nat) :
    checkMultiple 0 child mn mx fl text g acc curr count = none := rfl

/-- Defining equation of the `check_multiple` loop (matcher.rs lines
325-375): on a successful child match, stop early (returning `acc` without
consuming it) when `min_reached && max_reached && follow matches`; else
accumulate and continue, returning as soon as a bound maximum is hit. On a
failed child match, succeed iff `count ≥ min`. -/
theorem checkMultiple_succ (f : Nat) (child : Matcher) (mn : Nat) (mx : Option Nat)
    (fl : Option Matcher) (text : List Char) (g : GroupMap) (acc : MatchRes)
    (curr count : Nat) :
    checkMultiple (f + 1) child mn mx fl text g acc curr count =
      match checkMatch f child text curr g with
      | some other =>
        if decide (count ≥ mn) &&
            (match mx with
             | some v => decide (count ≥ v)
             | none => true) &&
            (match fl with
             | some fm => matchesAux f fm other.text
             | none => false) then
          some acc
        else
          match mx with
          | some v =>
            if count + 1 ≥ v then some (acc.accumulate other)
            else
              checkMultiple f child mn mx fl text (updateGroupResults g other)
                (acc.accumulate other) (curr + other.text.length) (count + 1)
          | none =>
            checkMultiple f child mn mx fl text (updateGroupResults g other)
              (acc.accumulate other) (curr + other.text.length) (count + 1)
      | none => if count ≥ mn then some acc else none := rfl

theorem checkGroup_zero (ms : List Matcher) (idx : Nat) (text : List Char) (off : Nat)
    (g : GroupMap) : checkGroup 0 ms idx text off g = none := rfl

theorem checkGroup_nil (f : Nat) (idx : Nat) (text : List Char) (off : Nat) (g : GroupMap) :
    checkGroup (f + 1) [] idx text off g = none := rfl

/-- Defining equation of the `check_group` loop (matcher.rs lines 381-398). -/
theorem checkGroup_cons (f : Nat) (m : Matcher) (rest : List Matcher) (idx : Nat)
    (text : List Char) (off : Nat) (g : GroupMap) :
    checkGroup (f + 1) (m :: rest) idx text off g =
      match checkMatch f m text off g with
      | some mm =>
        some (MatchRes.mk ((MatchRes.mk [] off []).accumulate mm).text
          ((MatchRes.mk [] off []).accumulate mm).offset
          (insertAssoc idx ((MatchRes.mk [] off []).accumulate mm)
            ((MatchRes.mk [] off []).accumulate mm).sub))
      | none => checkGroup f rest idx text off g := rfl

theorem findMatchFrom_zero (root : Matcher) (text : List Char) (offs : List Nat) :
    findMatchFrom 0 root text offs = none := rfl

theorem findMatchFrom_nil (f : Nat) (root : Matcher) (text : List Char) :
    findMatchFrom (f + 1) root text [] = none := rfl

/-- Defining equation of the `find_match` offset loop (matcher.rs lines
119-127). -/
theorem findMatchFrom_cons (f : Nat) (root : Matcher) (text : List Char) (o : Nat)
    (rest : List Nat) :
    findMatchFrom (f + 1) root text (o :: rest) =
      match checkMatch f root text o [] with
      | some r => some r
      | none => findMatchFrom f root text rest := rfl

/-- `Matcher::find_match` (matcher.rs lines 119-127): the Rust loop runs
`for offset in 0..text.chars().count()`, an exclusive range. -/
def findMatch (f : Nat) (root : Matcher) (text : List Char) : Option MatchRes :=
  findMatchFrom f root text (List.range text.length)

mutual

/-- Structural equality of matchers, as the derived `PartialEq` in Rust. -/
def Matcher.beq : Matcher → Matcher → Bool
  | .singleChar a, .singleChar b => a == b
  | .startM, .startM => true
  | .endM, .endM => true
  | .singleCharBranch cs n, .singleCharBranch cs' n' => cs == cs' && n == n'
  | .sequence ms, .sequence ms' => Matcher.beqList ms ms'
  | .multiple m mn mx fl, .multiple m' mn' mx' fl' =>
    Matcher.beq m m' && mn == mn' && mx == mx' && Matcher.beqOpt fl fl'
  | .wildcard, .wildcard => true
  | .group ms i, .group ms' i' => Matcher.beqList ms ms' && i == i'
  | .groupReference i, .groupReference i' => i == i'
  | _, _ => false

def Matcher.beqList : List Matcher → List Matcher → Bool
  | [], [] => true
  | a :: as, b :: bs => Matcher.beq a b && Matcher.beqList as bs
  | _, _ => false

def Matcher.beqOpt : Option Matcher → Option Matcher → Bool
  | none, none => true
  | some a, some b => Matcher.beq a b
  | _, _ => false

end

/-- `Matcher::is_mergeable_with` (matcher.rs lines 129-140). -/
def isMergeableWith (self other : Matcher) : Bool :=
  match self, other with
  | .multiple m1 _ _ _, .multiple m2 _ _ _ => Matcher.beq m1 m2
  | .multiple m1 _ _ _, _ => Matcher.beq m1 other
  | _, _ => false

/-- `Matcher::merge_with` (matcher.rs lines 142-179). The Rust function
panics when the matchers are not mergeable; `new_sequence` only calls it
under an `is_mergeable_with` guard, so the fallback arm returns `self`. -/
def mergeWith (self other : Matcher) : Matcher :=
  match self, other with
  | .multiple m min1 max1 _, .multiple _ min2 max2 _ =>
    let newMax : Option Nat :=
      match max1, max2 with
      | some v1, some v2 => some (v1 + v2)
      | _, _ => none
    .multiple m (min1 + min2) newMax none
  | .multiple m mn mx _, _ =>
    let newMax : Option Nat :=
      match mx with
      | some v => some (v + 1)
      | none => none
    .multiple m (mn + 1) newMax none
  | _, _ => self

mutual

/-- `Matcher::can_have_follow` (matcher.rs lines 181-190). The Rust code
unwraps the last alternative of a `Group`; an empty list (unreachable from
the parser) is mapped to `false`. -/
def canHaveFollow : Matcher → Bool
  | .multiple _ _ _ _ => true
  | .group ms _ => canHaveFollowLast ms
  | _ => false

def canHaveFollowLast : List Matcher → Bool
  | [] => false
  | [m] => canHaveFollow m
  | _ :: rest => canHaveFollowLast rest

end

mutual

/-- `Matcher::set_follow` (matcher.rs lines 192-210): attach the follow
matcher to a `Multiple`, or recursively to the last alternative of a
`Group`. Arms where the Rust code would panic return the input unchanged. -/
def setFollow (self follow : Matcher) : Matcher :=
  match self with
  | .multiple m mn mx _ => .multiple m mn mx (some follow)
  | .group ms idx => .group (setFollowLast ms follow) idx
  | _ => self

def setFollowLast (ms : List Matcher) (follow : Matcher) : List Matcher :=
  match ms with
  | [] => []
  | [m] => [setFollow m follow]
  | m :: rest => m :: setFollowLast rest follow

end

/-- The fold of `Matcher::new_sequence` (matcher.rs lines 39-68): collapse
mergeable neighbours and wire the `follow` lookahead of each pending
matcher to its successor. -/
def newSeqLoop : List Matcher → List Matcher → Option Matcher → List Matcher
  | [], acc, pending =>
    match pending with
    | some p => acc ++ [p]
    | none => acc
  | m :: rest, acc, none => newSeqLoop rest acc (some m)
  | m :: rest, acc, some p =>
    if isMergeableWith p m then newSeqLoop rest acc (some (mergeWith p m))
    else if canHaveFollow p then newSeqLoop rest (acc ++ [setFollow p m]) (some m)
    else newSeqLoop rest (acc ++ [p]) (some m)

/-- `Matcher::new_sequence` (matcher.rs lines 39-68). -/
def newSequence (ms : List Matcher) : Matcher :=
  .sequence (newSeqLoop ms [] none)

/-- `make_digit_matcher` (matcher.rs lines 445-448). -/
def makeDigitMatcher : Matcher :=
  .singleCharBranch ['0', '1', '2', '3', '4', '5', '6', '7', '8', '9'] false

/-- `make_alpha_num_matcher` (matcher.rs lines 450-461). -/
def makeAlphaNumMatcher : Matcher :=
  .singleCharBranch
    (("abcdefghijklmnopqrstuvwxyz").data ++ ("ABCDEFGHIJKLMNOPQRSTUVWXYZ").data ++
      ("0123456789").data ++ ['_']) false

/-- The opening curly brace character, written via its code point. -/
def lbrace : Char := Char.ofNat 123

/-- The closing curly brace character, written via its code point. -/
def rbrace : Char := Char.ofNat 125

/-- The parser state of `src/regex_parser.rs` (lines 5-10). -/
structure RegexParser where
  pattern : List Char
  index : Nat
  nextGroupIdx : Nat

/-- `RegexParser::peek` (regex_parser.rs lines 248-253). -/
def RegexParser.peek (p : RegexParser) : Option Char :=
  p.pattern[p.index]?

/-- `RegexParser::peek_nth` (regex_parser.rs lines 255-260). -/
def RegexParser.peekNth (p : RegexParser) (n : Nat) : Option Char :=
  p.pattern[p.index + n]?

/-- Value of an ASCII digit, as Rust's `char::to_digit(10)`. -/
def digitVal (c : Char) : Nat :=
  c.toNat - ('0').toNat

/-- The escape dispatch of `RegexParser::parse` (regex_parser.rs lines
30-49): given the character after the backslash and the current
`next_group_idx`, produce a matcher or reject. A back-reference `\k` is
rejected exactly when `k ≥ next_group_idx`. -/
def escapeMatcher (nc : Char) (nextGroupIdx : Nat) : Except String Matcher :=
  if nc = 'd' then Except.ok makeDigitMatcher
  else if nc = 'w' then Except.ok makeAlphaNumMatcher
  else if nc = '\\' ∨ nc = '+' ∨ nc = '?' ∨ nc = '.' ∨ nc = '[' ∨ nc = '(' then
    Except.ok (.singleChar nc)
  else if nc.isDigit then
    if digitVal nc ≥ nextGroupIdx then Except.error ("invalid group index")
    else Except.ok (.groupReference (digitVal nc))
  else Except.error ("invalid character")

/-- The loop of `RegexParser::split_alternation` (regex_parser.rs lines
166-212): walk the slice starting at the opening parenthesis, splitting the
level-1 body on `|`; on the closing parenthesis return the segments and the
number of consumed characters. -/
def splitAltGo : List Char → Int → List Char → List (List Char) → Nat →
    Except String (List (List Char) × Nat)
  | [], level, segment, segments, _ =>
    if segment.isEmpty ∧ level = 0 then Except.ok (segments, 0)
    else Except.error ("Invalid alternation pattern")
  | c :: rest, level, segment, segments, idx =>
    if c = '(' then
      if level + 1 = 1 then splitAltGo rest (level + 1) segment segments (idx + 1)
      else splitAltGo rest (level + 1) (segment ++ [c]) segments (idx + 1)
    else if c = ')' then
      if level - 1 = 0 then
        if segment.isEmpty then Except.error ("Empty alternation")
        else Except.ok (segments ++ [segment], idx + 1)
      else splitAltGo rest (level - 1) (segment ++ [c]) segments (idx + 1)
    else if c = '|' then
      if level = 1 then
        if segment.isEmpty then Except.error ("Empty alternation")
        else splitAltGo rest level [] (segments ++ [segment]) (idx + 1)
      else splitAltGo rest level (segment ++ [c]) segments (idx + 1)
    else splitAltGo rest level (segment ++ [c]) segments (idx + 1)

/-- `RegexParser::split_alternation` (regex_parser.rs lines 166-212). -/
def splitAlt (chars : List Char) : Except String (List (List Char) × Nat) :=
  splitAltGo chars 0 [] [] 0

/-- The reading loop of `RegexParser::parse_group_matcher` (regex_parser.rs
lines 227-233): collect characters until `]`, also returning how many
characters the loop consumed. -/
def classLoop : List Char → List Char → Except String (List Char × Nat)
  | [], _ => Except.error ("End of pattern reached")
  | c :: rest, acc =>
    if c = ']' then Except.ok (acc, 1)
    else (classLoop rest (acc ++ [c])).map fun p => (p.1, p.2 + 1)

/-- Numeric value of a digit string, as Rust's `str::parse::<usize>`. -/
def digitsToNat (ds : List Char) : Nat :=
  ds.foldl (fun n c => n * 10 + digitVal c) 0

/-- The loop of `RegexParser::parse_quantifiers` (regex_parser.rs lines
133-147) after the opening brace: collect digits until the closing brace,
rejecting other characters and an empty digit string. -/
def quantLoop : List Char → List Char → Except String (Nat × Nat)
  | [], _ => Except.error ("End of pattern reached")
  | c :: rest, digits =>
    if c.isDigit then (quantLoop rest (digits ++ [c])).map fun p => (p.1, p.2 + 1)
    else if c = rbrace then
      if digits.isEmpty then Except.error ("cannot parse integer from empty string")
      else Except.ok (digitsToNat digits, 1)
    else Except.error ("invalid quantifier character")

/-- The finalisation of `RegexParser::parse` (regex_parser.rs lines
126-130): reject an empty matcher list, return a single matcher bare, and
wrap several matchers with `new_sequence`. -/
def finalizeParse (ms : List Matcher) : Except String Matcher :=
  match ms with
  | [] => Except.error ("No matcher found")
  | [m] => Except.ok m
  | _ => Except.ok (newSequence ms)

/-- Dispatch type for the fueled parser `parseTask`: the
`while let Some(ch) = self.peek()` loop of `RegexParser::parse` and the
segment loop of `RegexParser::parse_group`, which are mutually recursive in
the Rust source; both produce a matcher list and a final `next_group_idx`. -/
inductive PTask where
  | loop (p : RegexParser) (acc : List Matcher)
  | segs (xs : List (List Char)) (ngi : Nat)

/-- The recursive core of `RegexParser::parse` (regex_parser.rs lines
25-131) and `RegexParser::parse_group` (lines 149-164) as one fueled
structural recursion. `PTask.loop` is the parse loop over the pattern;
`PTask.segs` parses each alternation segment with a sub-parser that
inherits and updates `next_group_idx` (each segment is parsed by a fresh
loop followed by the finalisation, exactly as the Rust sub-parser's
`parse()` call). -/
def parseTask : Nat → PTask → Except String (List Matcher × Nat)
  | 0, _ => Except.error ("out of fuel")
  | f + 1, task =>
    match task with
    | .loop p acc =>
      match p.peek with
      | none => Except.ok (acc, p.nextGroupIdx)
      | some ch =>
        if ch = '\\' then
          match p.peekNth 1 with
          | none => Except.error ("expected escaped char")
          | some nc =>
            match escapeMatcher nc p.nextGroupIdx with
            | Except.error e => Except.error e
            | Except.ok m => parseTask f (.loop { p with index := p.index + 2 } (acc ++ [m]))
        else if ch = '[' then
          match p.pattern[p.index + 1]? with
          | none => Except.error ("expected character")
          | some c0 =>
            match classLoop (p.pattern.drop (p.index + 2))
                (if c0 = '^' then [] else [c0]) with
            | Except.error e => Except.error e
            | Except.ok (chars, consumed) =>
              parseTask f (.loop { p with index := p.index + 2 + consumed }
                (acc ++ [.singleCharBranch chars (c0 = '^')]))
        else if ch = '(' then
          match splitAlt (p.pattern.drop p.index) with
          | Except.error e => Except.error e
          | Except.ok (segments, consumed) =>
            match parseTask f (.segs segments (p.nextGroupIdx + 1)) with
            | Except.error e => Except.error e
            | Except.ok (ms, ngi) =>
              parseTask f (.loop { p with index := p.index + consumed, nextGroupIdx := ngi }
                (acc ++ [.group ms p.nextGroupIdx]))
        else if ch = '^' then
          parseTask f (.loop { p with index := p.index + 1 } (acc ++ [.startM]))
        else if ch = '$' then
          parseTask f (.loop { p with index := p.index + 1 } (acc ++ [.endM]))
        else if ch = '+' then
          match acc.getLast? with
          | none => Except.error ("+ expects previous char")
          | some last =>
            parseTask f (.loop { p with index := p.index + 1 }
              (acc.dropLast ++ [.multiple last 1 none none]))
        else if ch = '*' then
          match acc.getLast? with
          | none => Except.error ("+ expects previous char")
          | some last =>
            parseTask f (.loop { p with index := p.index + 1 }
              (acc.dropLast ++ [.multiple last 0 none none]))
        else if ch = '?' then
          match acc.getLast? with
          | none => Except.error ("+ expects previous char")
          | some last =>
            parseTask f (.loop { p with index := p.index + 1 }
              (acc.dropLast ++ [.multiple last 0 (some 1) none]))
        else if ch = lbrace then
          match acc.getLast? with
          | none => Except.error ("+ expects previous char")
          | some last =>
            match quantLoop (p.pattern.drop (p.index + 1)) [] with
            | Except.error e => Except.error e
            | Except.ok (mn, consumed) =>
              parseTask f (.loop { p with index := p.index + 1 + consumed }
                (acc.dropLast ++ [.multiple last mn (some mn) none]))
        else if ch = '.' then
          parseTask f (.loop { p with index := p.index + 1 } (acc ++ [.wildcard]))
        else
          parseTask f (.loop { p with index := p.index + 1 } (acc ++ [.singleChar ch]))
    | .segs xs ngi =>
      match xs with
      | [] => Except.ok ([], ngi)
      | seg :: rest =>
        match parseTask f (.loop { pattern := seg, index := 0, nextGroupIdx := ngi } []) with
        | Except.error e => Except.error e
        | Except.ok (ms0, ngi') =>
          match finalizeParse ms0 with
          | Except.error e => Except.error e
          | Except.ok m =>
            match parseTask f (.segs rest ngi') with
            | Except.error e => Except.error e
            | Except.ok (ms, ngi'') => Except.ok (m :: ms, ngi'')

/-- `RegexParser::parse` (regex_parser.rs lines 25-131) run on a fresh
sub-parser: the loop followed by the finalisation. Also returns the final
`next_group_idx`. -/
def parseFull (f : Nat) (chars : List Char) (ngi : Nat) : Except String (Matcher × Nat) :=
  match parseTask f (.loop { pattern := chars, index := 0, nextGroupIdx := ngi } []) with
  | Except.error e => Except.error e
  | Except.ok (ms, ngi') =>
    match finalizeParse ms with
    | Except.error e => Except.error e
    | Except.ok m => Except.ok (m, ngi')

/-- `RegexParser::new(pattern).parse()` (regex_parser.rs lines 13-15,
25-131): parse a whole pattern starting from group index 1. The fuel is
ample for the pattern's length. -/
def parsePattern (pat : List Char) : Except String Matcher :=
  (parseFull ((pat.length + 2) * (pat.length + 2)) pat 1).map fun x => x.1

/-- List of `n` offsets counting up from `s`: the offsets `s, s+1, …`. -/
def rangeFrom : Nat → Nat → List Nat
  | _, 0 => []
  | s, n + 1 => s :: rangeFrom (s + 1) n

/-- Modelled from the spec: `find_all_matches` is not present under `src/`
(only its caller `match_all` in lib.rs line 158 is). Spec §4.2: repeat the
leftmost search, restarting after the previous match's end; if the previous
match was empty, advance by one character to avoid an infinite loop. The
leftmost search attempts offsets start, start+1, … up to the character
length of the text. -/
def findAllFrom : Nat → Matcher → List Char → Nat → List MatchRes
  | 0, _, _, _ => []
  | f + 1, root, text, start =>
    match findMatchFrom f root text (rangeFrom start (text.length + 1 - start)) with
    | none => []
    | some m =>
      m :: findAllFrom f root text
        (if m.text.length = 0 then m.offset + 1 else m.offset + m.text.length)

/-- Modelled from the spec: `find_all_matches(text)` (spec §4.2), searching
from offset 0 with ample fuel. -/
def findAllMatches (root : Matcher) (text : List Char) : List MatchRes :=
  findAllFrom ((text.length + 2) * (text.length + 2)) root text 0

/-- `match_all` (lib.rs lines 154-159): parse the pattern; a parse failure
yields the empty match list, a success yields `find_all_matches`. -/
def matchAll (line pat : List Char) : List MatchRes :=
  match parsePattern pat with
  | Except.error _ => []
  | Except.ok m => findAllMatches m line

/-- The `check_multiple` loop as the amended claim C1 describes it: before
consuming a successful child match, stop — returning the accumulated match —
exactly when the count is at least `mn`, the maximum is unbound or already
reached, and a follow matcher is present and matches the child's text; in
every other case consume greedily, returning as soon as a bound maximum is
hit. Stated separately so its agreement with `checkMultiple` is a theorem. -/
def checkMultipleAmended : Nat → Matcher → Nat → Option Nat → Option Matcher → List Char →
    GroupMap → MatchRes → Nat → Nat → Option MatchRes
  | 0, _, _, _, _, _, _, _, _, _ => none
  | f + 1, child, mn, mx, fl, text, g, acc, curr, count =>
    match checkMatch f child text curr g with
    | some other =>
      if decide (mn ≤ count) && mx.all (fun v => decide (v ≤ count)) &&
          fl.any (fun fm => matchesAux f fm other.text) then
        some acc
      else
        let acc' := acc.accumulate other
        let g' := updateGroupResults g other
        let curr' := curr + other.text.length
        let count' := count + 1
        match mx with
        | some v =>
          if count' ≥ v then some acc'
          else checkMultipleAmended f child mn mx fl text g' acc' curr' count'
        | none => checkMultipleAmended f child mn mx fl text g' acc' curr' count'
    | none => if count ≥ mn then some acc else none

/-- Modelled from the spec: the `check` evaluator of §4.2, written from the
spec's own wording so that the collapsed trees built by `new_sequence` can
be compared against the unmerged trees evaluated by §4.2 semantics (claim
C2). It uses the same fueled single-recursion scheme as `evalTask` and
differs from the source evaluator exactly where §4.2 prescribes: `End`
compares against the character length, the `Multiple` stop rule reads
"`max` unbound-or-not-yet-reached", and the leftmost search tries offsets
up to and including the character length. -/
def specEvalTask : Nat → List Char → Task → Option MatchRes
  | 0, _, _ => none
  | f + 1, text, task =>
    match task with
    | .chk m off g =>
      match m with
      | .singleChar c => checkSingleChar c text off
      | .startM => checkStart off
      | .endM => if off = text.length then some (MatchRes.mk [] off []) else none
      | .singleCharBranch cs neg => checkBranch cs neg text off
      | .sequence ms => specEvalTask f text (.seq ms g (MatchRes.mk [] off []) off)
      | .multiple child mn mx fl =>
        specEvalTask f text (.mult child mn mx fl g (MatchRes.mk [] off []) off 0)
      | .wildcard => checkWildcard text off
      | .group ms idx => specEvalTask f text (.grp ms idx off g)
      | .groupReference idx => checkGroupRef idx text off g
    | .seq ms g acc curr =>
      match ms with
      | [] => some acc
      | m :: rest =>
        match specEvalTask f text (.chk m curr g) with
        | some other =>
          specEvalTask f text (.seq rest (updateGroupResults g other) (acc.accumulate other)
            (curr + other.text.length))
        | none => none
    | .mult child mn mx fl g acc curr count =>
      match specEvalTask f text (.chk child curr g) with
      | some other =>
        if decide (count ≥ mn) &&
            (match mx with
             | some v => decide (count < v)
             | none => true) &&
            (match fl with
             | some fm =>
               (specEvalTask f other.text
                 (.find fm (rangeFrom 0 (other.text.length + 1)))).isSome
             | none => false) then
          some acc
        else
          match mx with
          | some v =>
            if count + 1 ≥ v then some (acc.accumulate other)
            else
              specEvalTask f text (.mult child mn mx fl (updateGroupResults g other)
                (acc.accumulate other) (curr + other.text.length) (count + 1))
          | none =>
            specEvalTask f text (.mult child mn mx fl (updateGroupResults g other)
              (acc.accumulate other) (curr + other.text.length) (count + 1))
      | none => if count ≥ mn then some acc else none
    | .grp ms idx off g =>
      match ms with
      | [] => none
      | m :: rest =>
        match specEvalTask f text (.chk m off g) with
        | some mm =>
          some (MatchRes.mk ((MatchRes.mk [] off []).accumulate mm).text
            ((MatchRes.mk [] off []).accumulate mm).offset
            (insertAssoc idx ((MatchRes.mk [] off []).accumulate mm)
              ((MatchRes.mk [] off []).accumulate mm).sub))
        | none => specEvalTask f text (.grp rest idx off g)
    | .find root offs =>
      match offs with
      | [] => none
      | o :: rest =>
        match specEvalTask f text (.chk root o []) with
        | some r => some r
        | none => specEvalTask f text (.find root rest)

/-- Modelled from the spec: `find_first_match(text)` of §4.2, trying offsets
0 up to and including the character length. -/
def specFindMatch (f : Nat) (root : Matcher) (text : List Char) : Option MatchRes :=
  specEvalTask f text (.find root (rangeFrom 0 (text.length + 1)))

/-! ### Basic lemmas about the embedding's data structures -/

@[simp] theorem MatchRes.text_mk (t : List Char) (o : Nat) (s : List (Nat × MatchRes)) :
    (MatchRes.mk t o s).text = t := rfl

@[simp] theorem MatchRes.offset_mk (t : List Char) (o : Nat) (s : List (Nat × MatchRes)) :
    (MatchRes.mk t o s).offset = o := rfl

@[simp] theorem MatchRes.sub_mk (t : List Char) (o : Nat) (s : List (Nat × MatchRes)) :
    (MatchRes.mk t o s).sub = s := rfl

@[simp] theorem MatchRes.accumulate_text (a b : MatchRes) :
    (a.accumulate b).text = a.text ++ b.text := rfl

@[simp] theorem MatchRes.accumulate_offset (a b : MatchRes) :
    (a.accumulate b).offset = a.offset := rfl

theorem lookupAssoc_insertAssoc {α : Type} (k : Nat) (v : α) (l : List (Nat × α)) :
    lookupAssoc k (insertAssoc k v l) = some v := by
  induction l with
  | nil => simp [insertAssoc, lookupAssoc]
  | cons kv rest ih =>
    obtain ⟨k', v'⟩ := kv
    by_cases h : k' = k
    · simp [insertAssoc, h, lookupAssoc]
    · simp [insertAssoc, h, lookupAssoc, ih]

theorem rangeFrom_mem {n s m : Nat} (h : m ∈ rangeFrom s n) : s ≤ m := by
  induction n generalizing s with
  | zero => simp [rangeFrom] at h
  | succ k ih =>
    simp only [rangeFrom, List.mem_cons] at h
    rcases h with h | h
    · omega
    · have := ih h; omega

/-- The matched text `s` is exactly the slice of `text` that starts at
character offset `off` and spans `s.length` characters. -/
def sliceOk (text : List Char) (off : Nat) (s : List Char) : Prop :=
  (text.drop off).take s.length = s

theorem sliceOk_nil (text : List Char) (off : Nat) : sliceOk text off [] := rfl

theorem get_drop_cons {text : List Char} {off : Nat} {c : Char} (h : text[off]? = some c) :
    text.drop off = c :: text.drop (off + 1) := by
  induction text generalizing off with
  | nil => simp at h
  | cons x xs ih =>
    cases off with
    | zero => simp_all
    | succ n =>
      simp only [List.getElem?_cons_succ] at h
      simpa using ih h

theorem sliceOk_single {text : List Char} {off : Nat} {c : Char}
    (h : text[off]? = some c) : sliceOk text off [c] := by
  unfold sliceOk
  rw [get_drop_cons h]
  rfl

theorem take_append_len (a b : List Char) (n : Nat) :
    (a ++ b).take (a.length + n) = a ++ b.take n := by
  induction a with
  | nil => simp
  | cons x xs ih => simp [List.length_cons, Nat.succ_add, ih]

theorem sliceOk_append {text : List Char} {off : Nat} {a b : List Char}
    (h1 : sliceOk text off a) (h2 : sliceOk text (off + a.length) b) :
    sliceOk text off (a ++ b) := by
  unfold sliceOk at *
  have hd : text.drop off = a ++ text.drop (off + a.length) := by
    conv_lhs => rw [← List.take_append_drop a.length (text.drop off)]
    rw [h1, List.drop_drop, Nat.add_comm]
  rw [hd, List.length_append, take_append_len, h2]

theorem listStartsWith_take {l s : List Char} (h : listStartsWith l s = true) :
    l.take s.length = s := by
  induction s generalizing l with
  | nil => rfl
  | cons p ps ih =>
    cases l with
    | nil => simp [listStartsWith] at h
    | cons c cs =>
      simp only [listStartsWith, Bool.and_eq_true, decide_eq_true_eq] at h
      obtain ⟨h1, h2⟩ := h
      simp [List.take, h1, ih h2]

theorem sliceOk_startsWith {text : List Char} {off : Nat} {s : List Char}
    (h : listStartsWith (text.drop off) s = true) : sliceOk text off s :=
  listStartsWith_take h

/-! ### Offset and slice invariants of the leaf matchers -/

theorem checkSingleChar_inv {c : Char} {text : List Char} {off : Nat} {r : MatchRes}
    (h : checkSingleChar c text off = some r) :
    r.offset = off ∧ sliceOk text off r.text := by
  by_cases hb : off ≥ text.length
  · simp [checkSingleChar, hb] at h
  · cases hg : text[off]? with
    | none => simp [checkSingleChar, hb, hg] at h
    | some ch =>
      by_cases he : ch = c
      · subst he
        obtain rfl : MatchRes.mk [ch] off [] = r := by
          simpa [checkSingleChar, hb, hg] using h
        exact ⟨rfl, sliceOk_single hg⟩
      · simp [checkSingleChar, hb, hg, he] at h

theorem checkStart_inv {off : Nat} {r : MatchRes} (h : checkStart off = some r) :
    r.offset = off ∧ ∀ text, sliceOk text off r.text := by
  unfold checkStart at h
  split at h
  · cases h
    exact ⟨rfl, fun _ => sliceOk_nil _ _⟩
  · exact absurd h (by simp)

theorem checkEnd_inv {text : List Char} {off : Nat} {r : MatchRes}
    (h : checkEnd text off = some r) :
    r.offset = off ∧ sliceOk text off r.text := by
  unfold checkEnd at h
  split at h
  · cases h
    exact ⟨rfl, sliceOk_nil _ _⟩
  · exact absurd h (by simp)

theorem checkBranch_inv {cs : List Char} {neg : Bool} {text : List Char} {off : Nat}
    {r : MatchRes} (h : checkBranch cs neg text off = some r) :
    r.offset = off ∧ sliceOk text off r.text := by
  cases hg : text[off]? with
  | none => simp [checkBranch, hg] at h
  | some ch =>
    cases neg with
    | true =>
      by_cases hc : ch ∈ cs
      · simp [checkBranch, hg, hc] at h
      · obtain rfl : MatchRes.mk [ch] off [] = r := by
          simpa [checkBranch, hg, hc] using h
        exact ⟨rfl, sliceOk_single hg⟩
    | false =>
      by_cases hc : ch ∈ cs
      · obtain rfl : MatchRes.mk [ch] off [] = r := by
          simpa [checkBranch, hg, hc] using h
        exact ⟨rfl, sliceOk_single hg⟩
      · simp [checkBranch, hg, hc] at h

theorem checkWildcard_inv {text : List Char} {off : Nat} {r : MatchRes}
    (h : checkWildcard text off = some r) :
    r.offset = off ∧ sliceOk text off r.text := by
  cases hg : text[off]? with
  | none => simp [checkWildcard, hg] at h
  | some ch =>
    obtain rfl : MatchRes.mk [ch] off [] = r := by
      simpa [checkWildcard, hg] using h
    exact ⟨rfl, sliceOk_single hg⟩

theorem checkGroupRef_inv {idx : Nat} {text : List Char} {off : Nat} {g : GroupMap}
    {r : MatchRes} (h : checkGroupRef idx text off g = some r) :
    r.offset = off ∧ sliceOk text off r.text := by
  cases hl : lookupAssoc idx g with
  | none => simp [checkGroupRef, hl] at h
  | some s =>
    by_cases hs : listStartsWith (text.drop off) s = true
    · obtain rfl : MatchRes.mk s off [] = r := by
        simpa [checkGroupRef, hl, hs] using h
      exact ⟨rfl, sliceOk_startsWith hs⟩
    · simp [checkGroupRef, hl, hs] at h

/-! ### The main offset/slice invariant of the evaluator -/

theorem check_inv : ∀ f : Nat,
    (∀ m text off g r, checkMatch f m text off g = some r →
      r.offset = off ∧ sliceOk text off r.text) ∧
    (∀ ms text g acc curr r, checkSequence f ms text g acc curr = some r →
      sliceOk text acc.offset acc.text → curr = acc.offset + acc.text.length →
      r.offset = acc.offset ∧ sliceOk text acc.offset r.text) ∧
    (∀ child mn mx fl text g acc curr count r,
      checkMultiple f child mn mx fl text g acc curr count = some r →
      sliceOk text acc.offset acc.text → curr = acc.offset + acc.text.length →
      r.offset = acc.offset ∧ sliceOk text acc.offset r.text) ∧
    (∀ ms idx text off g r, checkGroup f ms idx text off g = some r →
      r.offset = off ∧ sliceOk text off r.text) := by
  intro f
  induction f with
  | zero =>
    refine ⟨fun m text off g r h => ?_, fun ms text g acc curr r h => ?_,
      fun child mn mx fl text g acc curr count r h => ?_, fun ms idx text off g r h => ?_⟩
    · simp [checkMatch_zero] at h
    · simp [checkSequence_zero] at h
    · simp [checkMultiple_zero] at h
    · simp [checkGroup_zero] at h
  | succ f ih =>
    obtain ⟨ihC, ihS, ihM, ihG⟩ := ih
    refine ⟨?_, ?_, ?_, ?_⟩
    · -- checkMatch
      intro m text off g r h
      cases m with
      | singleChar c => exact checkSingleChar_inv (by simpa only [checkMatch_succ] using h)
      | startM =>
        have := checkStart_inv (r := r) (by simpa only [checkMatch_succ] using h)
        exact ⟨this.1, this.2 text⟩
      | endM => exact checkEnd_inv (by simpa only [checkMatch_succ] using h)
      | singleCharBranch cs neg => exact checkBranch_inv (by simpa only [checkMatch_succ] using h)
      | sequence ms =>
        have h' : checkSequence f ms text g (MatchRes.mk [] off []) off = some r := by
          simpa only [checkMatch_succ] using h
        have := ihS ms text g (MatchRes.mk [] off []) off r h' (sliceOk_nil _ _) (by simp)
        simpa using this
      | multiple child mn mx fl =>
        have h' : checkMultiple f child mn mx fl text g (MatchRes.mk [] off []) off 0 = some r := by
          simpa only [checkMatch_succ] using h
        have := ihM child mn mx fl text g (MatchRes.mk [] off []) off 0 r h' (sliceOk_nil _ _)
          (by simp)
        simpa using this
      | wildcard => exact checkWildcard_inv (by simpa only [checkMatch_succ] using h)
      | group ms idx =>
        exact ihG ms idx text off g r (by simpa only [checkMatch_succ] using h)
      | groupReference idx => exact checkGroupRef_inv (by simpa only [checkMatch_succ] using h)
    · -- checkSequence
      intro ms text g acc curr r h hslice hcurr
      cases ms with
      | nil =>
        obtain rfl : acc = r := by simpa [checkSequence_nil] using h
        exact ⟨rfl, hslice⟩
      | cons m rest =>
        rw [checkSequence_cons] at h
        cases hc : checkMatch f m text curr g with
        | none => rw [hc] at h; exact absurd h (by simp)
        | some other =>
          rw [hc] at h
          dsimp only at h
          obtain ⟨ho, hs⟩ := ihC m text curr g other hc
          have hslice' : sliceOk text (acc.accumulate other).offset (acc.accumulate other).text := by
            simp only [MatchRes.accumulate_offset, MatchRes.accumulate_text]
            exact sliceOk_append hslice (by rw [← hcurr]; exact hs)
          have hcurr' : curr + other.text.length =
              (acc.accumulate other).offset + (acc.accumulate other).text.length := by
            simp only [MatchRes.accumulate_offset, MatchRes.accumulate_text, List.length_append]
            omega
          have := ihS rest text (updateGroupResults g other) (acc.accumulate other)
            (curr + other.text.length) r h hslice' hcurr'
          simpa using this
    · -- checkMultiple
      intro child mn mx fl text g acc curr count r h hslice hcurr
      rw [checkMultiple_succ] at h
      cases hc : checkMatch f child text curr g with
      | none =>
        rw [hc] at h
        obtain ⟨-, rfl⟩ : mn ≤ count ∧ acc = r := by simpa using h
        exact ⟨rfl, hslice⟩
      | some other =>
        rw [hc] at h
        dsimp only at h
        obtain ⟨ho, hs⟩ := ihC child text curr g other hc
        have hslice' : sliceOk text (acc.accumulate other).offset (acc.accumulate other).text := by
          simp only [MatchRes.accumulate_offset, MatchRes.accumulate_text]
          exact sliceOk_append hslice (by rw [← hcurr]; exact hs)
        have hcurr' : curr + other.text.length =
            (acc.accumulate other).offset + (acc.accumulate other).text.length := by
          simp only [MatchRes.accumulate_offset, MatchRes.accumulate_text, List.length_append]
          omega
        split at h
        · obtain rfl : acc = r := by simpa using h
          exact ⟨rfl, hslice⟩
        · cases mx with
          | some v =>
            dsimp only at h
            split at h
            · obtain rfl : acc.accumulate other = r := by simpa using h
              exact ⟨by simp, by simpa using hslice'⟩
            · have := ihM child mn (some v) fl text (updateGroupResults g other)
                (acc.accumulate other) (curr + other.text.length) (count + 1) r h hslice' hcurr'
              simpa using this
          | none =>
            dsimp only at h
            have := ihM child mn none fl text (updateGroupResults g other)
              (acc.accumulate other) (curr + other.text.length) (count + 1) r h hslice' hcurr'
            simpa using this
    · -- checkGroup
      intro ms idx text off g r h
      cases ms with
      | nil => simp [checkGroup_nil] at h
      | cons m rest =>
        rw [checkGroup_cons] at h
        cases hc : checkMatch f m text off g with
        | none =>
          rw [hc] at h
          exact ihG rest idx text off g r h
        | some mm =>
          rw [hc] at h
          obtain ⟨ho, hs⟩ := ihC m text off g mm hc
          obtain rfl : MatchRes.mk ((MatchRes.mk [] off []).accumulate mm).text
              ((MatchRes.mk [] off []).accumulate mm).offset
              (insertAssoc idx ((MatchRes.mk [] off []).accumulate mm)
                ((MatchRes.mk [] off []).accumulate mm).sub) = r := by
            simpa using h
          exact ⟨by simp, by simpa using hs⟩

theorem checkMatch_inv {f : Nat} {m : Matcher} {text : List Char} {off : Nat} {g : GroupMap}
    {r : MatchRes} (h : checkMatch f m text off g = some r) :
    r.offset = off ∧ sliceOk text off r.text :=
  (check_inv f).1 m text off g r h

theorem findMatchFrom_inv : ∀ (f : Nat) (root : Matcher) (text : List Char) (offs : List Nat)
    (r : MatchRes), findMatchFrom f root text offs = some r →
    r.offset ∈ offs ∧ sliceOk text r.offset r.text := by
  intro f
  induction f with
  | zero => intro root text offs r h; simp [findMatchFrom_zero] at h
  | succ f ih =>
    intro root text offs r h
    cases offs with
    | nil => simp [findMatchFrom_nil] at h
    | cons o rest =>
      rw [findMatchFrom_cons] at h
      cases hc : checkMatch f root text o [] with
      | some m =>
        rw [hc] at h
        obtain rfl : m = r := by simpa using h
        obtain ⟨ho, hs⟩ := checkMatch_inv hc
        exact ⟨by simp [ho], ho ▸ hs⟩
      | none =>
        rw [hc] at h
        have := ih root text rest r h
        exact ⟨List.mem_cons_of_mem o this.1, this.2⟩

/-! ### Claims C5 and C10 -/

/-- C5: for every pattern tree and text, if `find_match` returns a match
`m`, then the slice of the text starting at character index `m.offset` and
spanning the character length of `m.matched_text` equals `m.matched_text`. -/
theorem c5_matched_text_is_slice (f : Nat) (root : Matcher) (text : List Char) (r : MatchRes)
    (h : findMatch f root text = some r) :
    (text.drop r.offset).take r.text.length = r.text :=
  (findMatchFrom_inv f root text (List.range text.length) r
    (by simpa only [findMatch] using h)).2

/-- Witness for C5 at the matcher `a`, text `ba`: the match is `a` at
offset 1 and the slice at offset 1 of length 1 is `a`. -/
theorem c5_witness :
    ((("ba").data).drop (MatchRes.mk ['a'] 1 []).offset).take
        (MatchRes.mk ['a'] 1 []).text.length = (MatchRes.mk ['a'] 1 []).text :=
  c5_matched_text_is_slice 10 (.singleChar 'a') (("ba").data) (MatchRes.mk ['a'] 1 []) (by rfl)

theorem checkGroup_self_capture : ∀ (f : Nat) (ms : List Matcher) (idx : Nat) (text : List Char)
    (off : Nat) (g : GroupMap) (r : MatchRes), checkGroup f ms idx text off g = some r →
    ∃ gm, lookupAssoc idx r.sub = some gm ∧ gm.text = r.text ∧ gm.offset = r.offset := by
  intro f
  induction f with
  | zero => intro ms idx text off g r h; simp [checkGroup_zero] at h
  | succ f ih =>
    intro ms idx text off g r h
    cases ms with
    | nil => simp [checkGroup_nil] at h
    | cons m rest =>
      rw [checkGroup_cons] at h
      cases hc : checkMatch f m text off g with
      | none =>
        rw [hc] at h
        exact ih rest idx text off g r h
      | some mm =>
        rw [hc] at h
        obtain rfl : MatchRes.mk ((MatchRes.mk [] off []).accumulate mm).text
            ((MatchRes.mk [] off []).accumulate mm).offset
            (insertAssoc idx ((MatchRes.mk [] off []).accumulate mm)
              ((MatchRes.mk [] off []).accumulate mm).sub) = r := by
          simpa using h
        exact ⟨(MatchRes.mk [] off []).accumulate mm,
          by simpa using lookupAssoc_insertAssoc idx _ _, rfl, rfl⟩

/-- C10: whenever the evaluation of a `Group` matcher with index `idx`
succeeds, the returned match's sub-matches contain an entry for `idx` whose
matched text and offset equal the group match's own matched text and
offset. -/
theorem c10_group_records_self (f : Nat) (ms : List Matcher) (idx : Nat) (text : List Char)
    (off : Nat) (g : GroupMap) (r : MatchRes)
    (h : checkMatch f (.group ms idx) text off g = some r) :
    ∃ gm, lookupAssoc idx r.sub = some gm ∧ gm.text = r.text ∧ gm.offset = r.offset := by
  cases f with
  | zero => simp [checkMatch_zero] at h
  | succ f =>
    exact checkGroup_self_capture f ms idx text off g r (by simpa only [checkMatch_succ] using h)

/-- Witness for C10 at the group `(a)` with index 1 on text `a`. -/
theorem c10_witness :
    ∃ gm, lookupAssoc 1 (MatchRes.mk ['a'] 0 [(1, MatchRes.mk ['a'] 0 [])]).sub = some gm ∧
      gm.text = (MatchRes.mk ['a'] 0 [(1, MatchRes.mk ['a'] 0 [])]).text ∧
      gm.offset = (MatchRes.mk ['a'] 0 [(1, MatchRes.mk ['a'] 0 [])]).offset :=
  c10_group_records_self 6 [.singleChar 'a'] 1 ['a'] 0 []
    (MatchRes.mk ['a'] 0 [(1, MatchRes.mk ['a'] 0 [])]) (by rfl)

/-! ### Claim C1: the stop condition of the Multiple evaluator -/

/-- C1 counterexample: take the node `Multiple(child = a, min = 0,
max = Some 2, follow = a)` on text `aa` at offset 0. At the first loop
iteration the child match is `a`, the count 0 is at least the minimum 0,
the bound maximum 2 is not yet reached, and the follow matcher `a` matches
the child's text — so the claim demands that the evaluator stop and return
the accumulated match, which at that point is empty. The code instead
consumes greedily and returns `aa`: with a bound maximum the Rust
`max_reached` flag is `count >= max`, not `count < max`. -/
theorem c1_counterexample :
    checkMatch 18 (.singleChar 'a') ['a', 'a'] 0 [] = some (MatchRes.mk ['a'] 0 []) ∧
    matchesAux 18 (.singleChar 'a') (MatchRes.mk ['a'] 0 []).text = true ∧
    ((0 : Nat) ≥ 0 ∧ (0 : Nat) < 2) ∧
    checkMatch 20 (.multiple (.singleChar 'a') 0 (some 2) (some (.singleChar 'a')))
      ['a', 'a'] 0 [] = some (MatchRes.mk ['a', 'a'] 0 []) ∧
    (MatchRes.mk ['a', 'a'] 0 []).text ≠ (MatchRes.mk [] 0 []).text :=
  ⟨rfl, rfl, ⟨Nat.le_refl 0, by decide⟩, rfl, by simp⟩

/-- C1 (amended): the `check_multiple` loop stops repeating — returning the
accumulated match without consuming the latest successful child match —
exactly when the repetition count is at least `min`, the maximum is unbound
or **already reached**, a follow matcher is present, and it matches the
child's matched text; in every other case the successful child match is
accumulated greedily (with an immediate successful return once a bound
maximum is hit). `checkMultipleAmended` is that description written out;
it agrees with the source loop everywhere. -/
theorem c1_amended_stop_condition :
    ∀ (f : Nat) (child : Matcher) (mn : Nat) (mx : Option Nat) (fl : Option Matcher)
      (text : List Char) (g : GroupMap) (acc : MatchRes) (curr count : Nat),
    checkMultipleAmended f child mn mx fl text g acc curr count =
      checkMultiple f child mn mx fl text g acc curr count := by
  intro f
  induction f with
  | zero => intro child mn mx fl text g acc curr count; rfl
  | succ f ih =>
    intro child mn mx fl text g acc curr count
    rw [checkMultiple_succ]
    unfold checkMultipleAmended
    cases hc : checkMatch f child text curr g with
    | none => rfl
    | some other =>
      dsimp only
      have hcond : (decide (mn ≤ count) && mx.all (fun v => decide (v ≤ count)) &&
          fl.any (fun fm => matchesAux f fm other.text)) =
          (decide (count ≥ mn) &&
            (match mx with
             | some v => decide (count ≥ v)
             | none => true) &&
            (match fl with
             | some fm => matchesAux f fm other.text
             | none => false)) := by
        cases mx <;> cases fl <;> simp [Option.all, Option.any, ge_iff_le]
      rw [hcond]
      cases mx <;> split <;> simp [ih]

/-! ### Claim C2: sequence collapsing is not observationally equivalent -/

/-- C2: the matcher list `[a*, a]` (pattern `a*a`) is collapsed by
`new_sequence` into the single node `Multiple(a, min 1, max unbound)` with
no follow. On text `aa` the collapsed tree matches `aa`, while the unmerged
tree of §4.2 — `Sequence [Multiple(a, 0, unbound, follow = a), a]` with the
follow wiring of §4.1 — matches only `a`: the collapse drops the follow
lookahead, so the first match's `matched_text` differs and the two trees
are not observationally equivalent. -/
theorem c2_collapse_not_equivalent :
    newSequence [Matcher.multiple (.singleChar 'a') 0 none none, .singleChar 'a']
      = .sequence [.multiple (.singleChar 'a') 1 none none] ∧
    findMatch 50 (newSequence [Matcher.multiple (.singleChar 'a') 0 none none, .singleChar 'a'])
      ['a', 'a'] = some (MatchRes.mk ['a', 'a'] 0 []) ∧
    specFindMatch 50 (Matcher.sequence
        [.multiple (.singleChar 'a') 0 none (some (.singleChar 'a')), .singleChar 'a'])
      ['a', 'a'] = some (MatchRes.mk ['a'] 0 []) ∧
    (MatchRes.mk ['a', 'a'] 0 []).text ≠ (MatchRes.mk ['a'] 0 []).text :=
  ⟨rfl, rfl, rfl, by simp⟩

/-! ### Claim C3: the End matcher compares against the byte length -/

/-- C3: on the text `ö` — one character, two UTF-8 bytes — `check_end`
fails at offset 1, the character length, and succeeds at offset 2, the byte
length: the code compares the character offset against `text.len()`, the
byte length, so the claimed equivalence "succeed iff offset equals the
character length" fails on non-ASCII text. -/
theorem c3_end_uses_byte_length :
    checkEnd ['ö'] 1 = none ∧
    (['ö'] : List Char).length = 1 ∧
    byteLen ['ö'] = 2 ∧
    checkEnd ['ö'] 2 = some (MatchRes.mk [] 2 []) :=
  ⟨rfl, rfl, rfl, rfl⟩

/-! ### Claim C4: the leftmost search stops short of the end offset -/

/-- C4: the pattern `^$` parses to `Sequence [Start, End]`, but on the
empty text `find_match` returns no match: the Rust loop runs
`for offset in 0..text.chars().count()`, an exclusive range, so on the
empty text no offset at all is attempted — the claimed search "up to and
including the character length" would have found the match at offset 0. -/
theorem c4_empty_text_no_match :
    parsePattern (("^$").data) = Except.ok (Matcher.sequence [.startM, .endM]) ∧
    findMatch 100 (Matcher.sequence [.startM, .endM]) [] = none ∧
    specFindMatch 100 (Matcher.sequence [.startM, .endM]) [] = some (MatchRes.mk [] 0 []) :=
  ⟨rfl, rfl, rfl⟩

/-! ### Claim C6: rejection of forward back-references -/

/-- C6: while parsing, a back-reference `\k` (k a digit) is rejected with a
parse error if and only if `k ≥ next_group_idx` at the point where the
back-reference is read — `escapeMatcher` is the escape dispatch of
`RegexParser::parse`, and it errors on a digit exactly under that
condition, so a reference to a group not yet opened never reaches the
evaluator. -/
theorem c6_backref_rejected_iff_unopened (c : Char) (ngi : Nat) (h : c.isDigit = true) :
    (∃ e, escapeMatcher c ngi = Except.error e) ↔ digitVal c ≥ ngi := by
  have hd : ¬(c = 'd') := fun hc => absurd (hc ▸ h) (by decide)
  have hw : ¬(c = 'w') := fun hc => absurd (hc ▸ h) (by decide)
  have hesc : ¬(c = '\\' ∨ c = '+' ∨ c = '?' ∨ c = '.' ∨ c = '[' ∨ c = '(') := by
    rintro (rfl | rfl | rfl | rfl | rfl | rfl) <;> exact absurd h (by decide)
  unfold escapeMatcher
  rw [if_neg hd, if_neg hw, if_neg hesc, if_pos h]
  by_cases hge : digitVal c ≥ ngi
  · rw [if_pos hge]
    exact ⟨fun _ => hge, fun _ => ⟨("invalid group index"), rfl⟩⟩
  · rw [if_neg hge]
    constructor
    · rintro ⟨e, he⟩
      cases he
    · intro hcontra
      exact absurd hcontra hge

/-- Witness for C6 at the back-reference `\2` with `next_group_idx = 1`:
the digit 2 is at least 1, so the parse is rejected. -/
theorem c6_witness :
    ('2').isDigit = true ∧
    ((∃ e, escapeMatcher '2' 1 = Except.error e) ↔ digitVal '2' ≥ 1) :=
  ⟨rfl, c6_backref_rejected_iff_unopened '2' 1 rfl⟩

/-! ### Claim C7: nested alternation with dense group numbering -/

/-- C7: parsing `(pad|r(a|ö))deln` and matching against `rödeln` yields the
match `rödeln` at offset 0 whose sub-matches map group 1 to `rö` at offset
0 and group 2 to `ö` at offset 1 — the group indices are assigned densely
in left-to-right source order starting at 1 across the nested
alternation. -/
theorem c7_nested_alternation_groups :
    ((parsePattern (("(pad|r(a|ö))deln").data)).toOption.bind fun t =>
        findMatch 300 t (("rödeln").data)).map
      (fun m => (m.text, m.offset,
        (lookupAssoc 1 m.sub).map (fun gm => (gm.text, gm.offset)),
        (lookupAssoc 2 m.sub).map (fun gm => (gm.text, gm.offset))))
    = some ((("rödeln").data), 0, some ((("rö").data), 0), some ((("ö").data), 1)) := rfl

/-! ### Claim C8: find_all_matches yields ordered, non-overlapping matches -/

theorem findAllFrom_start_le : ∀ (f : Nat) (root : Matcher) (text : List Char) (start : Nat)
    (r : MatchRes), r ∈ findAllFrom f root text start → start ≤ r.offset := by
  intro f
  induction f with
  | zero => intro root text start r hr; simp [findAllFrom] at hr
  | succ f ih =>
    intro root text start r hr
    unfold findAllFrom at hr
    cases hm : findMatchFrom f root text (rangeFrom start (text.length + 1 - start)) with
    | none => rw [hm] at hr; simp at hr
    | some m =>
      rw [hm] at hr
      have hm_off : start ≤ m.offset :=
        rangeFrom_mem (findMatchFrom_inv f root text _ m hm).1
      rcases List.mem_cons.mp hr with rfl | hr'
      · exact hm_off
      · have := ih root text _ r hr'
        split at this <;> omega

theorem findAllFrom_pairwise : ∀ (f : Nat) (root : Matcher) (text : List Char) (start : Nat),
    List.Pairwise (fun a b : MatchRes =>
      a.offset + a.text.length ≤ b.offset ∧ a.offset < b.offset)
      (findAllFrom f root text start) := by
  intro f
  induction f with
  | zero => intro root text start; simp [findAllFrom]
  | succ f ih =>
    intro root text start
    unfold findAllFrom
    cases hm : findMatchFrom f root text (rangeFrom start (text.length + 1 - start)) with
    | none => simp
    | some m =>
      refine List.Pairwise.cons ?_ (ih root text _)
      intro b hb
      have hb' := findAllFrom_start_le f root text _ b hb
      split at hb' <;> constructor <;> omega

/-- C8: the matches produced by `find_all_matches` (spec-modelled, §4.2)
are pairwise non-overlapping — each later match starts at or after the
previous match's end — and their offsets are strictly increasing, because
the search restarts after the previous match's end and advances by one
character after an empty match. -/
theorem c8_all_matches_ordered (root : Matcher) (text : List Char) :
    List.Pairwise (fun a b : MatchRes =>
      a.offset + a.text.length ≤ b.offset ∧ a.offset < b.offset)
      (findAllMatches root text) := by
  unfold findAllMatches
  exact findAllFrom_pairwise _ root text 0

/-! ### Claim C9: parse failures yield an empty match list -/

/-- C9: whenever parsing the pattern fails, `match_all` returns the empty
list of matches instead of propagating the parse error. -/
theorem c9_parse_error_empty_matches (pat line : List Char) (e : String)
    (h : parsePattern pat = Except.error e) : matchAll line pat = [] := by
  unfold matchAll
  rw [h]

/-- Witness for C9 at the pattern `+`, which fails to parse because the
quantifier has no preceding atom. -/
theorem c9_witness : matchAll (("abc").data) ['+'] = [] :=
  c9_parse_error_empty_matches ['+'] (("abc").data) ("+ expects previous char") rfl

end RegexGrep
